import Mathlib

/-
Verification development for the youtube-video repository.

Shallow embedding of the three subsystems carrying the engineering weight:
the Catalog Service (app/services/youtube_channel_service.py), the
Segmenting Engine and Download Worker (app/services/download_service.py),
and the Task Scheduler (DownloadService in the same file).  Python floats
are modelled as rationals, Python strings as Lean strings compared by code
points, Python dicts as insertion-ordered association lists.
-/

/-! ## Catalog service: item model and string ordering

An item descriptor as produced by `_fetch_playlist_recent` /
`_search_channel_recent_videos` (youtube_channel_service.py lines 371-377):
a dict with video_id, title, published_at (ISO-8601), url, _channel_id.
-/

structure VideoItem where
  video_id : String
  title : String
  published_at : String
  url : String
  channel_id : String
deriving DecidableEq, Repr

/-- Code-point lexicographic comparison of character lists; this is how
Python compares the `published_at` strings in `sort(key=..., reverse=True)`
and in the `>= cutoff_iso` filters. -/
def lexLe : List Char → List Char → Bool
  | [], _ => true
  | _ :: _, [] => false
  | a :: as, b :: bs =>
    if a.toNat < b.toNat then true
    else if b.toNat < a.toNat then false
    else lexLe as bs

/-- Python string `<=` (code-point order). -/
def strLe (a b : String) : Bool := lexLe a.data b.data

theorem lexLe_total (as bs : List Char) : lexLe as bs = true ∨ lexLe bs as = true := by
  induction as generalizing bs with
  | nil => left; rfl
  | cons a as ih =>
    cases bs with
    | nil => right; rfl
    | cons b bs =>
      by_cases hab : a.toNat < b.toNat
      · left; simp [lexLe, hab]
      · by_cases hba : b.toNat < a.toNat
        · right; simp [lexLe, hba]
        · rcases ih bs with h | h
          · left; simp [lexLe, hab, hba, h]
          · right; simp [lexLe, hab, hba, h]

theorem lexLe_trans (as bs cs : List Char) (h1 : lexLe as bs = true)
    (h2 : lexLe bs cs = true) : lexLe as cs = true := by
  induction as generalizing bs cs with
  | nil => rfl
  | cons a as ih =>
    cases bs with
    | nil => simp [lexLe] at h1
    | cons b bs =>
      cases cs with
      | nil => simp [lexLe] at h2
      | cons c cs =>
        simp only [lexLe] at h1 h2 ⊢
        by_cases hab : a.toNat < b.toNat
        · by_cases hbc : b.toNat < c.toNat
          · have hac : a.toNat < c.toNat := Nat.lt_trans hab hbc
            simp [hac]
          · by_cases hcb : c.toNat < b.toNat
            · simp [hbc, hcb] at h2
            · have hbceq : b.toNat = c.toNat := Nat.le_antisymm (Nat.le_of_not_lt hcb) (Nat.le_of_not_lt hbc)
              have hac : a.toNat < c.toNat := hbceq ▸ hab
              simp [hac]
        · by_cases hba : b.toNat < a.toNat
          · simp [hab, hba] at h1
          · have habeq : a.toNat = b.toNat := Nat.le_antisymm (Nat.le_of_not_lt hba) (Nat.le_of_not_lt hab)
            simp only [hab, hba, if_neg, if_false, ite_false, ite_true] at h1
            by_cases hbc : b.toNat < c.toNat
            · have hac : a.toNat < c.toNat := habeq ▸ hbc
              simp [hac]
            · by_cases hcb : c.toNat < b.toNat
              · simp [hbc, hcb] at h2
              · have hbceq : b.toNat = c.toNat := Nat.le_antisymm (Nat.le_of_not_lt hcb) (Nat.le_of_not_lt hbc)
                have hac : ¬ a.toNat < c.toNat := by omega
                have hca : ¬ c.toNat < a.toNat := by omega
                have h1' : lexLe as bs = true := by
                  by_cases h : a.toNat < b.toNat
                  · omega
                  · simpa [h, habeq ▸ (by omega : ¬ b.toNat < a.toNat)] using h1
                have h2' : lexLe bs cs = true := by
                  simpa [hbc, hcb] using h2
                simp [hac, hca, ih bs cs h1' h2']

theorem strLe_total (a b : String) : strLe a b = true ∨ strLe b a = true :=
  lexLe_total a.data b.data

theorem strLe_trans (a b c : String) (h1 : strLe a b = true) (h2 : strLe b c = true) :
    strLe a c = true :=
  lexLe_trans a.data b.data c.data h1 h2

/-! ## Catalog service: per-channel cache merge

Embedding of the merge-and-persist step shared by `load_channel_videos`
(lines 334-341) and `load_multiple_channels_videos` (lines 461-469):

    existing_map = {v.get("video_id"): v for v in existing}
    for v in vids: existing_map[v["video_id"]] = v
    merged = list(existing_map.values())
    merged.sort(key=lambda x: x.get("published_at", ""), reverse=True)

Python dicts are insertion-ordered maps: assigning to a present key
replaces the value in place, assigning to an absent key appends.
-/

/-- One Python dict assignment `m[k] = v` on an insertion-ordered map. -/
def dictInsert (m : List (String × VideoItem)) (k : String) (v : VideoItem) :
    List (String × VideoItem) :=
  if m.any (fun p => p.1 = k) then
    m.map (fun p => if p.1 = k then (k, v) else p)
  else m ++ [(k, v)]

/-- Folding a list of items into a dict keyed by `video_id` (the dict
comprehension, and the `for v in vids` assignment loop). -/
def insertAll (m : List (String × VideoItem)) (vs : List VideoItem) :
    List (String × VideoItem) :=
  vs.foldl (fun m v => dictInsert m v.video_id v) m

/-- Insertion step of a stable sort that puts larger `published_at` first,
mirroring `merged.sort(key=lambda x: x.get("published_at",""), reverse=True)`. -/
def insertDesc (x : VideoItem) : List VideoItem → List VideoItem
  | [] => [x]
  | y :: ys => if strLe y.published_at x.published_at then x :: y :: ys else y :: insertDesc x ys

/-- Sort by publish time descending (Python `list.sort(key=..., reverse=True)`). -/
def sortByPublishedDesc : List VideoItem → List VideoItem
  | [] => []
  | x :: xs => insertDesc x (sortByPublishedDesc xs)

/-- The merge-and-persist computation: union by item id (new entries
overwrite), re-sorted by publish time descending.  Its value is what
`_write_json(cache_path, merged)` persists. -/
def mergeCache (existing vids : List VideoItem) : List VideoItem :=
  sortByPublishedDesc ((insertAll (insertAll [] existing) vids).map Prod.snd)

/-- Descending order on items by `published_at`. -/
def pubDescRel (a b : VideoItem) : Prop := strLe b.published_at a.published_at = true

instance : DecidableRel pubDescRel := fun a b => by
  unfold pubDescRel; infer_instance

theorem mem_insertDesc (x z : VideoItem) (l : List VideoItem) :
    z ∈ insertDesc x l ↔ z = x ∨ z ∈ l := by
  induction l with
  | nil => simp [insertDesc]
  | cons y ys ih =>
    by_cases h : strLe y.published_at x.published_at = true
    · simp [insertDesc, h]
    · simp [insertDesc, h, ih]; tauto

theorem insertDesc_perm (x : VideoItem) (l : List VideoItem) :
    List.Perm (insertDesc x l) (x :: l) := by
  induction l with
  | nil => simp [insertDesc]
  | cons y ys ih =>
    by_cases h : strLe y.published_at x.published_at = true
    · simp [insertDesc, h]
    · simp only [insertDesc, h, ite_false, if_false, if_neg]
      exact ((ih.cons y).trans (List.Perm.swap x y ys))

theorem sortByPublishedDesc_perm (l : List VideoItem) :
    List.Perm (sortByPublishedDesc l) l := by
  induction l with
  | nil => simp [sortByPublishedDesc]
  | cons x xs ih =>
    exact (insertDesc_perm x (sortByPublishedDesc xs)).trans (ih.cons x)

theorem insertDesc_sorted (x : VideoItem) (l : List VideoItem)
    (h : l.Pairwise pubDescRel) : (insertDesc x l).Pairwise pubDescRel := by
  induction l with
  | nil => simp [insertDesc, List.Pairwise]
  | cons y ys ih =>
    rcases List.pairwise_cons.mp h with ⟨hy, hys⟩
    by_cases hc : strLe y.published_at x.published_at = true
    · simp only [insertDesc, if_pos hc]
      refine List.pairwise_cons.mpr ⟨?_, h⟩
      intro z hz
      rcases List.mem_cons.mp hz with rfl | hz
      · exact hc
      · exact strLe_trans _ _ _ (hy z hz) hc
    · simp only [insertDesc, if_neg hc]
      refine List.pairwise_cons.mpr ⟨?_, ih hys⟩
      intro z hz
      rcases (mem_insertDesc x z ys).mp hz with rfl | hz
      · rcases strLe_total y.published_at z.published_at with h' | h'
        · exact absurd h' hc
        · exact h'
      · exact hy z hz

theorem sortByPublishedDesc_sorted (l : List VideoItem) :
    (sortByPublishedDesc l).Pairwise pubDescRel := by
  induction l with
  | nil => simp [sortByPublishedDesc]
  | cons x xs ih => exact insertDesc_sorted x _ ih


theorem mem_dictInsert (m : List (String × VideoItem)) (k : String) (v : VideoItem)
    (p : String × VideoItem) :
    p ∈ dictInsert m k v ↔ (p ∈ m ∧ p.1 ≠ k) ∨ p = (k, v) := by
  unfold dictInsert
  split
  case isTrue h =>
    obtain ⟨q, hq, hqk⟩ := List.any_eq_true.mp h
    have hqk' : q.1 = k := of_decide_eq_true hqk
    constructor
    · intro hp
      obtain ⟨r, hr, hrp⟩ := List.mem_map.mp hp
      by_cases hrk : r.1 = k
      · right
        rw [if_pos hrk] at hrp
        exact hrp.symm
      · left
        rw [if_neg hrk] at hrp
        exact ⟨hrp ▸ hr, hrp ▸ hrk⟩
    · rintro (⟨hp, hpk⟩ | rfl)
      · exact List.mem_map.mpr ⟨p, hp, by rw [if_neg hpk]⟩
      · exact List.mem_map.mpr ⟨q, hq, by rw [if_pos hqk']⟩
  case isFalse h =>
    have hall : ∀ q ∈ m, q.1 ≠ k := by
      intro q hq hqk
      exact h (List.any_eq_true.mpr ⟨q, hq, decide_eq_true hqk⟩)
    constructor
    · intro hp
      rcases List.mem_append.mp hp with hp | hp
      · exact Or.inl ⟨hp, hall p hp⟩
      · right; simpa using hp
    · rintro (⟨hp, _⟩ | rfl)
      · exact List.mem_append.mpr (Or.inl hp)
      · exact List.mem_append.mpr (Or.inr (by simp))

theorem mem_insertAll (vs : List VideoItem) (m : List (String × VideoItem))
    (hv : (vs.map VideoItem.video_id).Nodup) (p : String × VideoItem) :
    p ∈ insertAll m vs ↔
      (p ∈ m ∧ p.1 ∉ vs.map VideoItem.video_id) ∨ (∃ v ∈ vs, p = (v.video_id, v)) := by
  induction vs generalizing m with
  | nil => simp [insertAll]
  | cons v rest ih =>
    have hv' : (rest.map VideoItem.video_id).Nodup := (List.nodup_cons.mp hv).2
    have hvid : v.video_id ∉ rest.map VideoItem.video_id := (List.nodup_cons.mp hv).1
    have step : insertAll m (v :: rest) = insertAll (dictInsert m v.video_id v) rest := rfl
    rw [step, ih (dictInsert m v.video_id v) hv']
    constructor
    · rintro (⟨hp, hnp⟩ | ⟨u, hu, rfl⟩)
      · rcases (mem_dictInsert m v.video_id v p).mp hp with ⟨hpm, hpk⟩ | rfl
        · left
          refine ⟨hpm, fun hmem => ?_⟩
          rw [List.map_cons] at hmem
          rcases List.mem_cons.mp hmem with h | h
          · exact hpk h
          · exact hnp h
        · right; exact ⟨v, List.mem_cons_self v rest, rfl⟩
      · right; exact ⟨u, List.mem_cons_of_mem v hu, rfl⟩
    · rintro (⟨hp, hnp⟩ | ⟨u, hu, rfl⟩)
      · have hpk : p.1 ≠ v.video_id := fun hk => hnp (by simp [hk])
        have hnp' : p.1 ∉ rest.map VideoItem.video_id := by
          intro hmem
          exact hnp (by rw [List.map_cons]; exact List.mem_cons_of_mem _ hmem)
        exact Or.inl ⟨(mem_dictInsert m v.video_id v p).mpr (Or.inl ⟨hp, hpk⟩), hnp'⟩
      · rcases List.mem_cons.mp hu with rfl | hu
        · left
          exact ⟨(mem_dictInsert m u.video_id u _).mpr (Or.inr rfl), hvid⟩
        · right; exact ⟨u, hu, rfl⟩

theorem mem_mergeCache (existing vids : List VideoItem)
    (he : (existing.map VideoItem.video_id).Nodup)
    (hv : (vids.map VideoItem.video_id).Nodup) (w : VideoItem) :
    w ∈ mergeCache existing vids ↔
      (w ∈ vids ∨ (w ∈ existing ∧ w.video_id ∉ vids.map VideoItem.video_id)) := by
  unfold mergeCache
  rw [(sortByPublishedDesc_perm _).mem_iff]
  constructor
  · intro hw
    obtain ⟨p, hp, hpw⟩ := List.mem_map.mp hw
    rcases (mem_insertAll vids _ hv p).mp hp with ⟨hp0, hnp⟩ | ⟨u, hu, rfl⟩
    · rcases (mem_insertAll existing [] he p).mp hp0 with ⟨hnil, _⟩ | ⟨u, hu, rfl⟩
      · simp at hnil
      · right
        refine ⟨hpw ▸ hu, ?_⟩
        simpa [← hpw] using hnp
    · exact Or.inl (hpw ▸ hu)
  · rintro (hw | ⟨hw, hnw⟩)
    · exact List.mem_map.mpr ⟨(w.video_id, w), (mem_insertAll vids _ hv _).mpr (Or.inr ⟨w, hw, rfl⟩), rfl⟩
    · refine List.mem_map.mpr ⟨(w.video_id, w), (mem_insertAll vids _ hv _).mpr (Or.inl ⟨?_, hnw⟩), rfl⟩
      exact (mem_insertAll existing [] he _).mpr (Or.inr ⟨w, hw, rfl⟩)

/-! ## Catalog service: multi-channel aggregation and quota signalling

Embedding of the `_agg` loop of `load_multiple_channels_videos`
(youtube_channel_service.py lines 439-478) and of
`_emit_multiple_with_quota` (lines 484-494).  The body of each loop
iteration (cache lookup, playlist fetch, per-channel cache merge) is
abstracted into its observable outcome: either it produced a list of
items which the loop extends `aggregated` with, or it raised an
exception whose lowercased message does or does not contain
"quotaexceeded".
-/

/-- Outcome of one channel iteration of the `_agg` loop: `ok vids`
(the `aggregated.extend(vids)` path), or `fail quota` (an exception,
where `quota` is `"quotaexceeded" in str(e).lower()`). -/
inductive ChannelOutcome where
  | ok (vids : List VideoItem)
  | fail (quota : Bool)
deriving DecidableEq, Repr

/-- Result dict of `_agg` (line 478). -/
structure AggResult where
  videos : List VideoItem
  quota_hit : Bool
  quota_msg : String
deriving DecidableEq, Repr

/-- The quota message set at line 475. -/
def quotaMessage : String := "YouTube Data API quota exceeded. Partial results shown."

/-- The `for cid in channel_ids` loop (lines 445-477): sequential, extends
`aggregated` on success, `continue`s on a non-quota exception, and on a
quota exception sets `quota_hit` and breaks immediately. -/
def aggLoop : List ChannelOutcome → List VideoItem → AggResult
  | [], acc => ⟨acc, false, ""⟩
  | .ok vids :: rest, acc => aggLoop rest (acc ++ vids)
  | .fail q :: rest, acc =>
    if q then ⟨acc, true, quotaMessage⟩ else aggLoop rest acc

/-- Signals emitted by YouTubeChannelService (lines 128-132). -/
inductive CatalogSignal where
  | multiple_videos_loaded (vids : List VideoItem)
  | quota_exceeded (msg : String) (vids : List VideoItem)
  | error_occurred (msg : String)
deriving DecidableEq, Repr

/-- `_emit_multiple_with_quota` (lines 484-494): a worker-level exception
goes to the generic error signal; otherwise quota_hit selects the
dedicated partial-result signal, else the normal aggregate signal. -/
def emitMultipleWithQuota (workerError : Option String) (workerResult : Option AggResult) :
    CatalogSignal :=
  match workerError with
  | some e => .error_occurred e
  | none =>
    let data := workerResult.getD ⟨[], false, ""⟩
    if data.quota_hit then .quota_exceeded data.quota_msg data.videos
    else .multiple_videos_loaded data.videos

theorem aggLoop_quota_after_successes (pre : List (List VideoItem))
    (rest : List ChannelOutcome) (acc : List VideoItem) :
    aggLoop (pre.map ChannelOutcome.ok ++ ChannelOutcome.fail true :: rest) acc =
      ⟨acc ++ pre.flatten, true, quotaMessage⟩ := by
  induction pre generalizing acc with
  | nil => simp [aggLoop]
  | cons vids pre ih =>
    simp only [List.map_cons, List.cons_append, aggLoop, List.append_eq]
    rw [ih]
    simp [List.append_assoc]

/-! ## Catalog service: retry with exponential backoff (`_execute_with_retries`)

Lines 102-124.  Python floats are modelled as rationals; `random.random()`
is an arbitrary rational `r` with `0 ≤ r < 1`.  The failure classification
booleans stand for the source's substring tests on the lowercased message:
`quota` = `"quotaexceeded" in lower`, `rate_limited` = rate-limit
substrings, `transient` = ssl/timeout/reset/temporarily/backenderror
substrings.
-/

/-- The backoff delay slept after a retried attempt (lines 122-123):
`delay = min(max_delay, base_delay * 2 ** (attempt - 1))`, then
`delay = delay * (0.7 + random.random() * 0.6)`. -/
def backoffDelay (base_delay max_delay : ℚ) (attempt : ℕ) (r : ℚ) : ℚ :=
  min max_delay (base_delay * 2 ^ (attempt - 1)) * (7/10 + r * (6/10))

/-- Expected value of the jitter factor `0.7 + r * 0.6` for `r` uniform on
[0,1): `E[r] = 1/2`, so the expected factor is exactly 1. -/
def expectedJitter : ℚ := 7/10 + (1/2) * (6/10)

/-- Expected backoff delay over the uniform jitter draw. -/
def expectedBackoffDelay (base_delay max_delay : ℚ) (attempt : ℕ) : ℚ :=
  min max_delay (base_delay * 2 ^ (attempt - 1)) * expectedJitter

/-- Failure classification of one attempt (lines 112-116). -/
structure ApiError where
  quota : Bool
  rate_limited : Bool
  transient : Bool
deriving DecidableEq, Repr

/-- What one `request.execute()` call does at a given attempt. -/
inductive ExecResult (α : Type) where
  | ok (a : α)
  | fail (e : ApiError)

/-- How `_execute_with_retries` ends: a returned value, a re-raised
exception, or falling through the loop (Python returns None; only
possible when `retries < attempt` from the start).  `sleeps` records the
attempts after which `time.sleep` ran. -/
inductive RetryResult (α : Type) where
  | ok (a : α) (attempt : ℕ) (sleeps : List ℕ)
  | raised (e : ApiError) (attempt : ℕ) (sleeps : List ℕ)
  | fellThrough (sleeps : List ℕ)

/-- The `for attempt in range(1, retries + 1)` loop of
`_execute_with_retries` (lines 108-124), unrolled on the number of
remaining iterations: re-raise when `attempt == retries or (quota and
attempt >= 2)`, re-raise when the failure is none of quota/rate-limited/
transient, otherwise sleep and go to the next attempt. -/
def retryAux (exec : ℕ → ExecResult α) (retries : ℕ) :
    (remaining : ℕ) → (attempt : ℕ) → (sleeps : List ℕ) → RetryResult α
  | 0, _, sleeps => .fellThrough sleeps
  | n + 1, attempt, sleeps =>
    match exec attempt with
    | .ok a => .ok a attempt sleeps
    | .fail e =>
      if attempt = retries ∨ (e.quota ∧ 2 ≤ attempt) then .raised e attempt sleeps
      else if ¬ (e.quota ∨ e.rate_limited ∨ e.transient) then .raised e attempt sleeps
      else retryAux exec retries n (attempt + 1) (sleeps ++ [attempt])

/-- `_execute_with_retries(request, retries)`: attempts run 1,…,retries. -/
def executeWithRetries (exec : ℕ → ExecResult α) (retries : ℕ) : RetryResult α :=
  retryAux exec retries retries 1 []

/-! ## Segmenting engine (download_service.py)

`split_and_mark_video` (lines 81-159), `break_and_pad` (lines 35-55) and
the ffmpeg filter expression built by `_run_segment` (lines 112-119).
Durations (ffprobe floats) are modelled as rationals.
-/

/-- Python float modulo `d % s` for `s > 0`: `d - s * (d // s)`. -/
def pythonMod (d s : ℚ) : ℚ := d - s * ⌊d / s⌋

/-- Segment count (line 101):
`num_parts = int(duration // segment_duration) + (1 if duration % segment_duration > 0 else 0)`. -/
def numParts (duration segment_duration : ℚ) : ℤ :=
  ⌊duration / segment_duration⌋ + (if pythonMod duration segment_duration > 0 then 1 else 0)

/-- Breaking one over-long word into `width`-sized chunks; fuel is the word
length.  Part of the model of the Python stdlib `textwrap.wrap` used at
line 42 (`break_long_words=True` keeps every emitted line ≤ width). -/
def chunkWordAux (width : ℕ) : ℕ → List Char → List (List Char)
  | 0, cs => if cs.isEmpty then [] else [cs]
  | fuel + 1, cs =>
    if cs.length ≤ width then (if cs.isEmpty then [] else [cs])
    else cs.take width :: chunkWordAux width fuel (cs.drop width)

/-- Greedy line filling over whitespace-separated words (the second half of
the `textwrap.wrap` contract): a word joins the current line when it still
fits in `width` counting one separating space, else it starts a new line. -/
def greedyFill (width : ℕ) : List (List Char) → Option (List Char) → List (List Char)
  | [], none => []
  | [], some cur => [cur]
  | w :: ws, none => greedyFill width ws (some w)
  | w :: ws, some cur =>
    if cur.length + 1 + w.length ≤ width then
      greedyFill width ws (some (cur ++ [' '] ++ w))
    else cur :: greedyFill width ws (some w)

/-- Modelled from the contract of the Python standard library
`textwrap.wrap(text, width)` call at line 42 (the stdlib itself is not part
of this repository): split on whitespace, break over-long words, fill lines
greedily.  The properties the source relies on hold of the stdlib function:
every returned line is non-empty and at most `width` long, and an empty or
whitespace-only `text` yields the empty list. -/
def wrapText (text : String) (width : ℕ) : List String :=
  let words := (text.data.splitOnP Char.isWhitespace).filter (fun w => ¬ w.isEmpty)
  let chunked := words.foldr (fun w acc => chunkWordAux width w.length w ++ acc) []
  (greedyFill width chunked none).map List.asString

/-- Padding one line (lines 49-53): `extra = max_len - len(line)`,
`left = extra // 2`, `right = extra - left`,
`" " * right + line + " " * left`. -/
def padLine (max_len : ℕ) (line : String) : String :=
  let extra := max_len - line.length
  let left := extra / 2
  let right := extra - left
  (List.replicate right ' ').asString ++ line ++ (List.replicate left ' ').asString

/-- `max(len(line) for line in lines)` for a non-empty list (line 45);
Python's `max` raises ValueError on an empty sequence. -/
def maxLineLen (lines : List String) : ℕ :=
  (lines.map String.length).foldl max 0

/-- `break_and_pad(text, width)` (lines 35-55).  The `.error` case is the
`ValueError` Python's `max` raises when `textwrap.wrap` returned no lines. -/
def breakAndPad (text : String) (width : ℕ) : Except String String :=
  let lines := wrapText text width
  match lines with
  | [] => .error "ValueError: max() arg is an empty sequence"
  | _ =>
    let max_len := maxLineLen lines
    .ok (String.intercalate "\n" (lines.map (padLine max_len)))

/-- The padded line list before joining (step 3 of `break_and_pad`). -/
def paddedLines (lines : List String) : List String :=
  lines.map (padLine (maxLineLen lines))

/-- The start of `split_and_mark_video` relevant to the overlay title
(lines 87-91, 101): `safe_title = break_and_pad(video_title, 30)` is
computed before any segment job runs, so its ValueError propagates out of
the engine; on success the engine goes on to build `num_parts` segments. -/
def splitAndMark (video_title : String) (duration segment_duration : ℚ) :
    Except String (String × ℤ) :=
  match breakAndPad video_title 30 with
  | .error e => .error e
  | .ok safe_title => .ok (safe_title, numParts duration segment_duration)

/-- The `-vf` filter expression built by `_run_segment` (lines 113-119),
with `safe_title` and `top_text` interpolated verbatim.  `font_param` is
`""` when no font file is found (lines 95-99). -/
def vfFilter (w h : ℕ) (font_param safe_title top_text : String) : String :=
  "scale=" ++ toString w ++ ":" ++ toString h ++
    ":force_original_aspect_ratio=decrease,pad=" ++ toString w ++ ":" ++ toString h ++
    ":(ow-iw)/2:(oh-ih)/2," ++
  "drawtext=" ++ (if font_param = "" then "" else font_param ++ ":") ++
    "text='" ++ safe_title ++ "':fontcolor=black:fontsize=36:" ++
    "x=(w-text_w)/2:y=h/4-text_h:box=1:boxcolor=yellow@1:boxborderw=10," ++
  "drawtext=" ++ (if font_param = "" then "" else font_param ++ ":") ++
    "text='" ++ top_text ++ "':fontcolor=black:fontsize=48:" ++
    "x=(w-text_w)/2:y=h-text_h-h/4:box=1:boxcolor=yellow@1:boxborderw=10"

/-- The backslash character, written by code point. -/
def backslashChar : Char := Char.ofNat 92

/-- Counts occurrences of `c` in a character list that are not preceded by
a backslash, i.e. occurrences the ffmpeg filter grammar reads unescaped. -/
def unescapedCountAux (c : Char) : Option Char → List Char → ℕ
  | _, [] => 0
  | prev, x :: rest =>
    (if x = c ∧ prev ≠ some backslashChar then 1 else 0) + unescapedCountAux c (some x) rest

/-- Unescaped occurrences of `c` in a string. -/
def unescapedCount (c : Char) (s : String) : ℕ := unescapedCountAux c none s.data

/-! ## Task model, download worker and scheduler (download_service.py)

`TaskStatus`/`TaskType` from app/models/download_task.py; `DownloadWorker.run`
(lines 233-354) and the `DownloadService` scheduling operations
(lines 505-558).
-/

inductive TaskStatus where
  | pending | queued | downloading | processing | completed | failed | cancelled
deriving DecidableEq, Repr

inductive TaskType where
  | video_audio | audio_only | video_only
deriving DecidableEq, Repr

/-- Observable emissions of `DownloadWorker.run` (signals declared at
lines 219-222; progress updates are omitted as no claim concerns them). -/
inductive WorkerEmit where
  | status_changed (s : TaskStatus)
  | error_occurred (msg : String)
  | download_completed (path : String) (segments : List String)
deriving DecidableEq, Repr

/-- The environment of one `DownloadWorker.run` execution: the task's
configuration plus the outcome of each external effect the run performs. -/
structure WorkerEnv where
  /-- `self._cancelled` already true when `run` starts (line 236). -/
  cancelledAtStart : Bool
  /-- `_locate_ffmpeg` found both binaries (lines 240-241). -/
  hasFfmpeg : Bool
  taskType : TaskType
  /-- `self.task.should_split` (line 257). -/
  shouldSplit : Bool
  /-- the progress hook saw `self._cancelled` during the transfer and
  raised `Exception("Download cancelled by user")` (lines 281-282). -/
  cancelObserved : Bool
  /-- a yt-dlp failure during `extract_info(download=True)` (message), when
  not cancelled. -/
  downloadError : Option String
  /-- the output-file glob found a file (lines 318-323). -/
  fileFound : Bool
  /-- result of `split_and_mark_video` (lines 332-338). -/
  splitResult : Except String (List String)
  outputPath : String

/-- Message of the RuntimeError at lines 270-272. -/
def ffmpegMissingMsg : String :=
  "FFmpeg not found. Required for this operation (video muxing / splitting)."

/-- Message of the Exception raised by the progress hook (line 282). -/
def cancelledMsg : String := "Download cancelled by user"

/-- `DownloadWorker.run` (lines 233-354) as a function from the run's
environment to its emitted signals, in order.  The generic `except` clause
(lines 345-354) turns any raised exception into `error_occurred` followed
by `status_changed FAILED`; the ffmpeg-hint suffix appended to some
messages (lines 347-351) is not modelled, messages are passed through. -/
def workerRun (env : WorkerEnv) : List WorkerEmit :=
  if env.cancelledAtStart then []
  else
    let prefixEmits := [WorkerEmit.status_changed .downloading]
    let videoProcessingRequired := env.taskType ≠ TaskType.audio_only
    let fallbackNoFfmpeg :=
      ¬ env.hasFfmpeg ∧ videoProcessingRequired ∧ ¬ env.shouldSplit ∧
        env.taskType = TaskType.video_audio
    if ¬ env.hasFfmpeg ∧ ¬ fallbackNoFfmpeg ∧ (videoProcessingRequired ∨ env.shouldSplit) then
      prefixEmits ++ [.error_occurred ffmpegMissingMsg, .status_changed .failed]
    else
      match (if env.cancelObserved then some cancelledMsg else env.downloadError) with
      | some msg => prefixEmits ++ [.error_occurred msg, .status_changed .failed]
      | none =>
        if ¬ env.fileFound then
          prefixEmits ++ [.error_occurred "Downloaded file not found after yt-dlp run.",
            .status_changed .failed]
        else if env.shouldSplit then
          if ¬ env.hasFfmpeg then
            prefixEmits ++ [.error_occurred "Splitting requested but ffmpeg is not available.",
              .status_changed .failed]
          else
            match env.splitResult with
            | .ok segs =>
              prefixEmits ++ [.status_changed .processing,
                .download_completed env.outputPath segs, .status_changed .completed]
            | .error _ =>
              prefixEmits ++ [.status_changed .processing,
                .download_completed env.outputPath [], .status_changed .completed]
        else
          prefixEmits ++ [.download_completed env.outputPath [], .status_changed .completed]

/-- Scheduler state of `DownloadService`: the task registry, the FIFO wait
list `queue`, the ids holding a bound worker (`active_workers`), the set of
workers that have been signalled to cancel, and the ceiling. -/
structure SchedState where
  tasks : List (String × TaskStatus)
  queue : List String
  active : List String
  cancelFlags : List String
  maxConcurrent : ℕ
deriving DecidableEq, Repr

/-- `self.tasks[task_id]` lookup. -/
def lookupTask (tasks : List (String × TaskStatus)) (id : String) : Option TaskStatus :=
  (tasks.find? (fun p => p.1 = id)).map Prod.snd

/-- `task.status = st` assignment. -/
def setTask (tasks : List (String × TaskStatus)) (id : String) (st : TaskStatus) :
    List (String × TaskStatus) :=
  tasks.map (fun p => if p.1 = id then (p.1, st) else p)

/-- `_launch_worker` (lines 522-531): binds a worker to the task. -/
def launchWorker (s : SchedState) (id : String) : SchedState :=
  { s with active := s.active ++ [id] }

/-- `start_download` (lines 505-520). -/
def startDownload (s : SchedState) (id : String) : SchedState :=
  match lookupTask s.tasks id with
  | none => s
  | some st =>
    if st = .downloading ∨ st = .processing ∨ st = .queued then s
    else if s.maxConcurrent ≤ s.active.length then
      let s' := { s with tasks := setTask s.tasks id .queued }
      if id ∈ s.queue then s' else { s' with queue := s.queue ++ [id] }
    else launchWorker s id

/-- The `while self.queue and len(self.active_workers) < self.max_concurrent`
loop of `_maybe_start_next` (lines 539-545), recursing on the wait list. -/
def drainQueue (maxC : ℕ) (tasks : List (String × TaskStatus)) :
    List String → List String → List String × List String
  | [], active => ([], active)
  | next :: rest, active =>
    if active.length < maxC then
      match lookupTask tasks next with
      | some st =>
        if st = .queued then drainQueue maxC tasks rest (active ++ [next])
        else drainQueue maxC tasks rest active
      | none => drainQueue maxC tasks rest active
    else (next :: rest, active)

/-- `_maybe_start_next` (lines 539-545). -/
def maybeStartNext (s : SchedState) : SchedState :=
  let p := drainQueue s.maxConcurrent s.tasks s.queue s.active
  { s with queue := p.1, active := p.2 }

/-- `_on_worker_finished` (lines 533-537): release the slot, then pull from
the queue. -/
def onWorkerFinished (s : SchedState) (id : String) : SchedState :=
  maybeStartNext { s with active := s.active.erase id }

/-- `cancel_download` (lines 547-558): an active task's worker gets its
cancel flag set (cooperative); a merely queued task is removed from the
wait list and set to CANCELLED directly. -/
def cancelDownload (s : SchedState) (id : String) : SchedState :=
  if id ∈ s.active then { s with cancelFlags := s.cancelFlags ++ [id] }
  else if id ∈ s.queue then
    if (lookupTask s.tasks id).isSome then
      { s with queue := s.queue.erase id, tasks := setTask s.tasks id .cancelled }
    else { s with queue := s.queue.erase id }
  else s

/-! ## Claim theorems -/

/-- C1: in `load_multiple_channels_videos`, channels are processed
sequentially; when a quota-exceeded failure follows some successful
channels, iteration stops and the dedicated `quota_exceeded` signal is
emitted carrying exactly the items accumulated from the channels that
completed before the failure — not `error_occurred` and not an empty
aggregate.  In particular, in a 5-channel aggregate where the first 2
channels succeed and the third hits quota, the signal carries exactly
those 2 channels' items. -/
theorem C1_quota_partial_result :
    (∀ (pre : List (List VideoItem)) (rest : List ChannelOutcome),
      emitMultipleWithQuota none
          (some (aggLoop (pre.map ChannelOutcome.ok ++ ChannelOutcome.fail true :: rest) [])) =
        CatalogSignal.quota_exceeded quotaMessage pre.flatten) ∧
    (∀ (v1 v2 : List VideoItem) (c4 c5 : ChannelOutcome),
      emitMultipleWithQuota none
          (some (aggLoop [ChannelOutcome.ok v1, ChannelOutcome.ok v2,
            ChannelOutcome.fail true, c4, c5] [])) =
        CatalogSignal.quota_exceeded quotaMessage (v1 ++ v2)) := by
  constructor
  · intro pre rest
    rw [aggLoop_quota_after_successes]
    simp [emitMultipleWithQuota]
  · intro v1 v2 c4 c5
    have h := aggLoop_quota_after_successes [v1, v2] [c4, c5] []
    simp only [List.map_cons, List.map_nil, List.cons_append, List.nil_append] at h
    rw [h]
    simp [emitMultipleWithQuota]

/-- C2: the persisted per-channel cache after a fetch is the union, keyed
by item id, of the previously cached items and the newly fetched items —
new entries win for an existing id, cached-only items are never dropped —
sorted by publish time descending.  (Ids within each of the two inputs are
distinct, as cache files are written from dict values.) -/
theorem C2_cache_merge (existing vids : List VideoItem)
    (he : (existing.map VideoItem.video_id).Nodup)
    (hv : (vids.map VideoItem.video_id).Nodup) :
    (mergeCache existing vids).Pairwise pubDescRel ∧
    (∀ w, w ∈ mergeCache existing vids ↔
      (w ∈ vids ∨ (w ∈ existing ∧ w.video_id ∉ vids.map VideoItem.video_id))) :=
  ⟨sortByPublishedDesc_sorted _, fun w => mem_mergeCache existing vids he hv w⟩

/-- Cached item A at time t1 (the spec's concrete cache-merge example). -/
def itemA : VideoItem := ⟨"idA", "A", "2024-01-01T00:00:00Z", "u", "c1"⟩

/-- Cached and refetched item B at time t2. -/
def itemB : VideoItem := ⟨"idB", "B", "2024-01-02T00:00:00Z", "u", "c1"⟩

/-- Newly fetched item C at time t3. -/
def itemC : VideoItem := ⟨"idC", "C", "2024-01-03T00:00:00Z", "u", "c1"⟩

/-- Witness for C2 at the spec's example: cached {A@t1, B@t2}, fetch
{B@t2, C@t3}; the persisted result is [C, B, A] — a 3-item union sorted by
publish time descending, not a 2-item replacement. -/
theorem C2_cache_merge_witness :
    ([itemA, itemB].map VideoItem.video_id).Nodup ∧
    ([itemB, itemC].map VideoItem.video_id).Nodup ∧
    ((mergeCache [itemA, itemB] [itemB, itemC]).Pairwise pubDescRel ∧
      (∀ w, w ∈ mergeCache [itemA, itemB] [itemB, itemC] ↔
        (w ∈ [itemB, itemC] ∨ (w ∈ [itemA, itemB] ∧
          w.video_id ∉ [itemB, itemC].map VideoItem.video_id)))) ∧
    mergeCache [itemA, itemB] [itemB, itemC] = [itemC, itemB, itemA] :=
  ⟨by decide, by decide, C2_cache_merge [itemA, itemB] [itemB, itemC] (by decide) (by decide),
    by decide⟩

/-- C5: for positive duration d and segment duration s, `num_parts` in
`split_and_mark_video` equals ⌈d / s⌉, computed as floor division plus one
exactly when the remainder is positive; in particular d=250, s=120 gives 3
parts and d=120, s=120 gives exactly 1. -/
theorem C5_segment_count :
    (∀ d s : ℚ, 0 < d → 0 < s → numParts d s = ⌈d / s⌉) ∧
    numParts 250 120 = 3 ∧ numParts 120 120 = 1 := by
  refine ⟨?_, by norm_num [numParts, pythonMod], by norm_num [numParts, pythonMod]⟩
  intro d s hd hs
  have hle : (⌊d / s⌋ : ℚ) ≤ d / s := Int.floor_le _
  have hms : (⌊d / s⌋ : ℚ) * s ≤ d := (le_div_iff₀ hs).mp hle
  by_cases h : pythonMod d s > 0
  · rw [numParts, if_pos h]
    unfold pythonMod at h
    have hlt : (⌊d / s⌋ : ℚ) < d / s := by
      rw [lt_div_iff₀ hs]
      nlinarith
    have h1 : ⌊d / s⌋ < ⌈d / s⌉ := Int.lt_ceil.mpr hlt
    have h2 : ⌈d / s⌉ ≤ ⌊d / s⌋ + 1 := Int.ceil_le_floor_add_one _
    omega
  · rw [numParts, if_neg h]
    unfold pythonMod at h
    set m := ⌊d / s⌋ with hm
    have heq : d = s * (m : ℚ) := by nlinarith
    have hds : d / s = (m : ℚ) :=
      (div_eq_iff (ne_of_gt hs)).mpr (by rw [heq]; ring)
    rw [hds, Int.ceil_intCast, add_zero]

/-- Witness for C5 at d=250, s=120 (the spec's concrete case, ⌈250/120⌉=3). -/
theorem C5_segment_count_witness :
    (0 : ℚ) < 250 ∧ (0 : ℚ) < 120 ∧ numParts 250 120 = ⌈(250 : ℚ) / 120⌉ :=
  ⟨by norm_num, by norm_num, C5_segment_count.1 250 120 (by norm_num) (by norm_num)⟩

/-- C3, counterexample: the claim's bound "every individual delay ≤
maxDelay" fails.  With base_delay=1, max_delay=16 (the source defaults) and
retries=6, attempt 5 is genuinely retried (the all-transient run sleeps
after attempts 1–5), and with jitter draw r=5/6 (factor 1.2) the slept
delay is 19.2 > 16. -/
theorem C3_backoff_exceeds_max :
    executeWithRetries (fun _ => ExecResult.fail (α := Unit) ⟨false, false, true⟩) 6 =
      RetryResult.raised ⟨false, false, true⟩ 6 [1, 2, 3, 4, 5] ∧
    (0 : ℚ) ≤ 5/6 ∧ (5/6 : ℚ) < 1 ∧
    backoffDelay 1 16 5 (5/6) > 16 :=
  ⟨rfl, by norm_num, by norm_num, by norm_num [backoffDelay]⟩

/-- C3 (amended): the sleep delay equals min(maxDelay, baseDelay·2^(n−1))
times a jitter factor in [0.7, 1.3); consecutive delays are non-decreasing
in expectation, the expected delay is bounded by maxDelay, and every
individual delay is bounded by 1.3 × maxDelay (the pre-jitter delay, not
the slept delay, is what maxDelay caps). -/
theorem C3_backoff_amended (base_delay max_delay r : ℚ) (attempt : ℕ)
    (hr0 : 0 ≤ r) (hr1 : r < 1) (hb : 0 ≤ base_delay) (hm : 0 ≤ max_delay) :
    (∃ j : ℚ, 7/10 ≤ j ∧ j < 13/10 ∧
      backoffDelay base_delay max_delay attempt r =
        min max_delay (base_delay * 2 ^ (attempt - 1)) * j) ∧
    expectedBackoffDelay base_delay max_delay attempt ≤
      expectedBackoffDelay base_delay max_delay (attempt + 1) ∧
    expectedBackoffDelay base_delay max_delay attempt ≤ max_delay ∧
    backoffDelay base_delay max_delay attempt r ≤ (13/10) * max_delay := by
  have hej : expectedJitter = 1 := by norm_num [expectedJitter]
  have hpow : (2 : ℚ) ^ (attempt - 1) ≤ 2 ^ ((attempt + 1) - 1) :=
    pow_le_pow_right₀ (by norm_num) (by omega)
  have hmin_le : min max_delay (base_delay * 2 ^ (attempt - 1)) ≤ max_delay := min_le_left _ _
  have hmin_nonneg : 0 ≤ min max_delay (base_delay * 2 ^ (attempt - 1)) :=
    le_min hm (mul_nonneg hb (by positivity))
  refine ⟨⟨7/10 + r * (6/10), by linarith, by linarith, rfl⟩, ?_, ?_, ?_⟩
  · unfold expectedBackoffDelay
    rw [hej, mul_one, mul_one]
    exact min_le_min le_rfl (mul_le_mul_of_nonneg_left hpow hb)
  · unfold expectedBackoffDelay
    rw [hej, mul_one]
    exact hmin_le
  · unfold backoffDelay
    have hpr : min max_delay (base_delay * 2 ^ (attempt - 1)) * r ≤
        min max_delay (base_delay * 2 ^ (attempt - 1)) * 1 :=
      mul_le_mul_of_nonneg_left (le_of_lt hr1) hmin_nonneg
    nlinarith [hpr]

/-- Witness for C3's amended statement at base_delay=1, max_delay=16,
attempt=2, r=1/2. -/
theorem C3_backoff_amended_witness :
    (0 : ℚ) ≤ 1/2 ∧ (1/2 : ℚ) < 1 ∧ (0 : ℚ) ≤ 1 ∧ (0 : ℚ) ≤ 16 ∧
    ((∃ j : ℚ, 7/10 ≤ j ∧ j < 13/10 ∧
      backoffDelay 1 16 2 (1/2) = min 16 ((1 : ℚ) * 2 ^ (2 - 1)) * j) ∧
    expectedBackoffDelay 1 16 2 ≤ expectedBackoffDelay 1 16 (2 + 1) ∧
    expectedBackoffDelay 1 16 2 ≤ 16 ∧
    backoffDelay 1 16 2 (1/2) ≤ (13/10) * 16) :=
  ⟨by norm_num, by norm_num, by norm_num, by norm_num,
    C3_backoff_amended 1 16 (1/2) 2 (by norm_num) (by norm_num) (by norm_num) (by norm_num)⟩

/-- One retried step of the loop: a retryable non-final failure sleeps and
moves to the next attempt. -/
theorem retryAux_step (exec : ℕ → ExecResult α) (retries rem attempt : ℕ) (sleeps : List ℕ)
    (e : ApiError) (hexec : exec attempt = .fail e)
    (hnr : ¬ (attempt = retries ∨ (e.quota = true ∧ 2 ≤ attempt)))
    (hcls : e.quota = true ∨ e.rate_limited = true ∨ e.transient = true) :
    retryAux exec retries (rem + 1) attempt sleeps =
      retryAux exec retries rem (attempt + 1) (sleeps ++ [attempt]) := by
  simp only [retryAux, hexec]
  rw [if_neg (by simpa using hnr), if_neg (not_not_intro (by simpa using hcls))]

/-- C4: in `_execute_with_retries`, a quota-classified failure on the
second or any later attempt is re-raised (so quota is retried at most
once — an all-quota run raises on attempt 2 after a single sleep), and a
failure classified as none of quota/rate-limited/transient is re-raised on
the very attempt where it occurs with no sleep. -/
theorem C4_quota_once_other_immediate :
    (∀ (exec : ℕ → ExecResult Unit) (retries n rem : ℕ) (sleeps : List ℕ) (e : ApiError),
      2 ≤ n → exec n = .fail e → e.quota = true →
      retryAux exec retries (rem + 1) n sleeps = .raised e n sleeps) ∧
    (∀ (exec : ℕ → ExecResult Unit) (retries n rem : ℕ) (sleeps : List ℕ) (e : ApiError),
      exec n = .fail e → e.quota = false → e.rate_limited = false → e.transient = false →
      retryAux exec retries (rem + 1) n sleeps = .raised e n sleeps) ∧
    (∀ (exec : ℕ → ExecResult Unit) (retries : ℕ) (e1 e2 : ApiError),
      2 ≤ retries → exec 1 = .fail e1 → e1.quota = true → exec 2 = .fail e2 →
      e2.quota = true → executeWithRetries exec retries = .raised e2 2 [1]) := by
  refine ⟨?_, ?_, ?_⟩
  · intro exec retries n rem sleeps e hn hexec hq
    simp only [retryAux, hexec]
    rw [if_pos (Or.inr ⟨by simp [hq], hn⟩)]
  · intro exec retries n rem sleeps e hexec hq hr ht
    simp only [retryAux, hexec]
    by_cases hnr : n = retries ∨ (e.quota ∧ 2 ≤ n)
    · rw [if_pos hnr]
    · rw [if_neg hnr, if_pos (by simp [hq, hr, ht])]
  · intro exec retries e1 e2 hret hexec1 hq1 hexec2 hq2
    obtain ⟨k, rfl⟩ : ∃ k, retries = (k + 1) + 1 := ⟨retries - 2, by omega⟩
    show retryAux exec ((k + 1) + 1) ((k + 1) + 1) 1 [] = .raised e2 2 [1]
    rw [retryAux_step exec ((k + 1) + 1) (k + 1) 1 [] e1 hexec1
      (by push_neg; exact ⟨by omega, fun _ => by omega⟩) (Or.inl hq1)]
    simp only [List.nil_append]
    norm_num
    simp only [retryAux, hexec2]
    rw [if_pos (Or.inr ⟨by simp [hq2], by omega⟩)]

/-- Witness for C4: all three parts applied at concrete executors —
an always-quota-failing request, an always-other-failing request. -/
theorem C4_quota_once_other_immediate_witness :
    retryAux (fun _ => ExecResult.fail (α := Unit) ⟨true, false, false⟩) 5 (3 + 1) 2 [1] =
      .raised ⟨true, false, false⟩ 2 [1] ∧
    retryAux (fun _ => ExecResult.fail (α := Unit) ⟨false, false, false⟩) 5 (4 + 1) 1 [] =
      .raised ⟨false, false, false⟩ 1 [] ∧
    executeWithRetries (fun _ => ExecResult.fail (α := Unit) ⟨true, false, false⟩) 5 =
      .raised ⟨true, false, false⟩ 2 [1] :=
  ⟨C4_quota_once_other_immediate.1 _ 5 2 3 [1] _ (by norm_num) rfl rfl,
   C4_quota_once_other_immediate.2.1 _ 5 1 4 [] _ rfl rfl rfl rfl,
   C4_quota_once_other_immediate.2.2 _ 5 _ _ (by norm_num) rfl rfl rfl rfl⟩

theorem lookupTask_setTask (tasks : List (String × TaskStatus)) (id : String) (st : TaskStatus)
    (h : (lookupTask tasks id).isSome) :
    lookupTask (setTask tasks id st) id = some st := by
  induction tasks with
  | nil => simp [lookupTask] at h
  | cons p rest ih =>
    rcases p with ⟨k, v⟩
    by_cases hp : k = id
    · subst hp
      show lookupTask ((if k = k then (k, st) else (k, v)) :: setTask rest k st) k = some st
      simp [lookupTask, List.find?]
    · have hrest : (lookupTask rest id).isSome := by
        simpa [lookupTask, List.find?, hp] using h
      have hih := ih hrest
      show lookupTask ((if k = id then (k, st) else (k, v)) :: setTask rest id st) id = some st
      rw [if_neg hp]
      simpa [lookupTask, List.find?, hp] using hih

/-- C7: a failure raised by `split_and_mark_video` is caught and only
logged (lines 339-340): the run still emits `download_completed` with the
output path and an empty segment list and ends COMPLETED — FAILED is never
emitted on account of the segmenting error. -/
theorem C7_split_failure_not_fatal (env : WorkerEnv) (msg : String)
    (h1 : env.cancelledAtStart = false) (h2 : env.hasFfmpeg = true)
    (h3 : env.shouldSplit = true) (h4 : env.cancelObserved = false)
    (h5 : env.downloadError = none) (h6 : env.fileFound = true)
    (h7 : env.splitResult = .error msg) :
    workerRun env = [.status_changed .downloading, .status_changed .processing,
      .download_completed env.outputPath [], .status_changed .completed] ∧
    WorkerEmit.status_changed .failed ∉ workerRun env := by
  have hrun : workerRun env = [.status_changed .downloading, .status_changed .processing,
      .download_completed env.outputPath [], .status_changed .completed] := by
    simp [workerRun, h1, h2, h3, h4, h5, h6, h7]
  refine ⟨hrun, ?_⟩
  rw [hrun]
  simp

/-- A run environment whose segmenting step fails (everything else
succeeds). -/
def envSplitFail : WorkerEnv :=
  ⟨false, true, .video_audio, true, false, none, true, .error "boom", "out.mp4"⟩

/-- Witness for C7 at a concrete environment. -/
theorem C7_split_failure_not_fatal_witness :
    envSplitFail.cancelledAtStart = false ∧ envSplitFail.hasFfmpeg = true ∧
    envSplitFail.shouldSplit = true ∧ envSplitFail.cancelObserved = false ∧
    envSplitFail.downloadError = none ∧ envSplitFail.fileFound = true ∧
    envSplitFail.splitResult = .error "boom" ∧
    (workerRun envSplitFail = [.status_changed .downloading, .status_changed .processing,
      .download_completed envSplitFail.outputPath [], .status_changed .completed] ∧
    WorkerEmit.status_changed .failed ∉ workerRun envSplitFail) :=
  ⟨rfl, rfl, rfl, rfl, rfl, rfl, rfl,
    C7_split_failure_not_fatal envSplitFail "boom" rfl rfl rfl rfl rfl rfl rfl⟩

/-- A run environment of an active download whose cancellation is observed
at a progress callback; everything else would have succeeded. -/
def envCancelObserved : WorkerEnv :=
  ⟨false, true, .video_audio, false, true, none, true, .ok [], "out.mp4"⟩

/-- C6, counterexample: cancelling an active task does not eventually
yield CANCELLED.  When the worker observes the flag, the raised
`Exception("Download cancelled by user")` goes through the generic
handler: the run ends FAILED, CANCELLED is never emitted — and the same
run without the cancellation would have ended COMPLETED, so FAILED is a
terminal status caused by (not reached before) the cancellation. -/
theorem C6_active_cancel_ends_failed :
    workerRun envCancelObserved = [.status_changed .downloading,
      .error_occurred cancelledMsg, .status_changed .failed] ∧
    WorkerEmit.status_changed .cancelled ∉ workerRun envCancelObserved ∧
    workerRun { envCancelObserved with cancelObserved := false } =
      [.status_changed .downloading, .download_completed "out.mp4" [],
        .status_changed .completed] :=
  ⟨rfl, by decide, rfl⟩

/-- C6 (amended): cancelling a merely Queued task removes it from the wait
list and sets it to CANCELLED directly, binding no worker; cancelling an
active task only sets the worker's cooperative flag, and a worker that
observes the flag at a progress callback ends its run with the FAILED
status (message "Download cancelled by user"), not CANCELLED; a run that
ended before observing the flag keeps its own terminal status. -/
theorem C6_cancel_behaviour :
    (∀ (s : SchedState) (id : String), id ∉ s.active → id ∈ s.queue →
      (lookupTask s.tasks id).isSome →
      (cancelDownload s id).queue = s.queue.erase id ∧
      lookupTask (cancelDownload s id).tasks id = some .cancelled ∧
      (cancelDownload s id).active = s.active) ∧
    (∀ (s : SchedState) (id : String), id ∈ s.active →
      (cancelDownload s id).cancelFlags = s.cancelFlags ++ [id] ∧
      (cancelDownload s id).tasks = s.tasks ∧
      (cancelDownload s id).queue = s.queue ∧
      (cancelDownload s id).active = s.active) ∧
    (∀ env : WorkerEnv, env.cancelledAtStart = false → env.hasFfmpeg = true →
      env.cancelObserved = true →
      workerRun env = [.status_changed .downloading, .error_occurred cancelledMsg,
        .status_changed .failed]) := by
  refine ⟨?_, ?_, ?_⟩
  · intro s id hna hq hsome
    unfold cancelDownload
    rw [if_neg hna, if_pos hq, if_pos hsome]
    exact ⟨rfl, lookupTask_setTask s.tasks id .cancelled hsome, rfl⟩
  · intro s id ha
    unfold cancelDownload
    rw [if_pos ha]
    exact ⟨rfl, rfl, rfl, rfl⟩
  · intro env h1 h2 h3
    simp [workerRun, h1, h2, h3]

/-- A scheduler state with one queued and one active task. -/
def schedEx : SchedState :=
  ⟨[("t1", .queued), ("t2", .downloading)], ["t1"], ["t2"], [], 2⟩

/-- Witness for C6's amended statement: cancelling queued "t1" and active
"t2" in `schedEx`, and the cancelled-run environment. -/
theorem C6_cancel_behaviour_witness :
    ("t1" ∉ schedEx.active ∧ "t1" ∈ schedEx.queue ∧
      (lookupTask schedEx.tasks "t1").isSome ∧
      ((cancelDownload schedEx "t1").queue = schedEx.queue.erase "t1" ∧
        lookupTask (cancelDownload schedEx "t1").tasks "t1" = some .cancelled ∧
        (cancelDownload schedEx "t1").active = schedEx.active)) ∧
    ("t2" ∈ schedEx.active ∧
      ((cancelDownload schedEx "t2").cancelFlags = schedEx.cancelFlags ++ ["t2"] ∧
        (cancelDownload schedEx "t2").tasks = schedEx.tasks ∧
        (cancelDownload schedEx "t2").queue = schedEx.queue ∧
        (cancelDownload schedEx "t2").active = schedEx.active)) ∧
    workerRun envCancelObserved = [.status_changed .downloading,
      .error_occurred cancelledMsg, .status_changed .failed] :=
  ⟨⟨by decide, by decide, by decide,
      C6_cancel_behaviour.1 schedEx "t1" (by decide) (by decide) (by decide)⟩,
    ⟨by decide, C6_cancel_behaviour.2.1 schedEx "t2" (by decide)⟩,
    C6_cancel_behaviour.2.2 envCancelObserved rfl rfl rfl⟩

theorem drainQueue_length_le (maxC : ℕ) (tasks : List (String × TaskStatus))
    (queue active : List String) (h : active.length ≤ maxC) :
    (drainQueue maxC tasks queue active).2.length ≤ maxC := by
  induction queue generalizing active with
  | nil => simpa [drainQueue] using h
  | cons next rest ih =>
    by_cases hlt : active.length < maxC
    · simp only [drainQueue, if_pos hlt]
      cases hl : lookupTask tasks next with
      | none => exact ih active h
      | some st =>
        dsimp only
        by_cases hst : st = TaskStatus.queued
        · rw [if_pos hst]
          exact ih (active ++ [next]) (by simpa using hlt)
        · rw [if_neg hst]
          exact ih active h
    · simpa [drainQueue, if_neg hlt] using h

/-- C8: the scheduler never exceeds the concurrency ceiling.
`start_download` binds a worker only when the active count is strictly
below `max_concurrent` — otherwise it sets the task to QUEUED and appends
it to the FIFO wait list — and the post-completion dequeue loop launches
queued tasks only while the active count stays below the ceiling, so every
scheduler operation preserves `|active_workers| ≤ max_concurrent`. -/
theorem C8_concurrency_ceiling :
    (∀ (s : SchedState) (id : String), s.active.length ≤ s.maxConcurrent →
      (startDownload s id).active.length ≤ s.maxConcurrent ∧
      (maybeStartNext s).active.length ≤ s.maxConcurrent ∧
      (onWorkerFinished s id).active.length ≤ s.maxConcurrent) ∧
    (∀ (s : SchedState) (id : String) (st : TaskStatus),
      lookupTask s.tasks id = some st →
      ¬ (st = .downloading ∨ st = .processing ∨ st = .queued) →
      s.maxConcurrent ≤ s.active.length →
      (startDownload s id).active = s.active ∧
      lookupTask (startDownload s id).tasks id = some .queued ∧
      (id ∉ s.queue → (startDownload s id).queue = s.queue ++ [id])) := by
  constructor
  · intro s id h
    refine ⟨?_, ?_, ?_⟩
    · unfold startDownload
      cases hl : lookupTask s.tasks id with
      | none => exact h
      | some st =>
        dsimp only
        by_cases hst : st = .downloading ∨ st = .processing ∨ st = .queued
        · rw [if_pos hst]; exact h
        · rw [if_neg hst]
          by_cases hc : s.maxConcurrent ≤ s.active.length
          · rw [if_pos hc]
            by_cases hq : id ∈ s.queue
            · rw [if_pos hq]; exact h
            · rw [if_neg hq]; exact h
          · rw [if_neg hc]
            simp only [launchWorker, List.length_append, List.length_cons, List.length_nil]
            omega
    · exact drainQueue_length_le s.maxConcurrent s.tasks s.queue s.active h
    · exact drainQueue_length_le s.maxConcurrent s.tasks s.queue (s.active.erase id)
        (le_trans (List.length_erase_le id s.active) h)
  · intro s id st hl hst hc
    unfold startDownload
    rw [hl]
    dsimp only
    rw [if_neg hst, if_pos hc]
    by_cases hq : id ∈ s.queue
    · rw [if_pos hq]
      exact ⟨rfl, lookupTask_setTask s.tasks id .queued (by simp [hl]), fun hnq => absurd hq hnq⟩
    · rw [if_neg hq]
      exact ⟨rfl, lookupTask_setTask s.tasks id .queued (by simp [hl]), fun _ => rfl⟩

/-- A saturated scheduler state: ceiling 2 with two active workers and a
pending task "a". -/
def schedFull : SchedState :=
  ⟨[("a", .pending), ("w1", .downloading), ("w2", .downloading)], [], ["w1", "w2"], [], 2⟩

/-- Witness for C8 at `schedFull`: the invariant is preserved by every
operation, and starting "a" at the ceiling queues it instead of binding a
worker. -/
theorem C8_concurrency_ceiling_witness :
    (schedFull.active.length ≤ schedFull.maxConcurrent ∧
      ((startDownload schedFull "a").active.length ≤ schedFull.maxConcurrent ∧
        (maybeStartNext schedFull).active.length ≤ schedFull.maxConcurrent ∧
        (onWorkerFinished schedFull "a").active.length ≤ schedFull.maxConcurrent)) ∧
    (lookupTask schedFull.tasks "a" = some .pending ∧
      ¬ (TaskStatus.pending = .downloading ∨ TaskStatus.pending = .processing ∨
        TaskStatus.pending = .queued) ∧
      schedFull.maxConcurrent ≤ schedFull.active.length ∧
      ((startDownload schedFull "a").active = schedFull.active ∧
        lookupTask (startDownload schedFull "a").tasks "a" = some .queued ∧
        ("a" ∉ schedFull.queue → (startDownload schedFull "a").queue = schedFull.queue ++ ["a"]))) :=
  ⟨⟨by decide, C8_concurrency_ceiling.1 schedFull "a" (by decide)⟩,
    ⟨by decide, by decide, by decide,
      C8_concurrency_ceiling.2 schedFull "a" .pending (by decide) (by decide) (by decide)⟩⟩

/-- The opening-bracket character, one of the characters the filter
grammar requires escaped. -/
def openBracketChar : Char := Char.ofNat 91

/-- C9: evaluation at the failing input.  `split_and_mark_video` inserts
the wrapped overlay title into the drawtext filter verbatim — no escaping
is applied to overlay text (only the font path is escaped, lines 97-98).
For `video_title = "x[y"` the wrapped title is `"x[y"` unchanged and the
built filter contains exactly one unescaped `[` — contributed by the
source text, since the same filter built from the bracket-free title
`"xy"` contains none.  The claim requires zero unescaped occurrences. -/
theorem C9_overlay_text_not_escaped :
    breakAndPad "x[y" 30 = .ok "x[y" ∧
    unescapedCount openBracketChar (vfFilter 1080 1920 "" "x[y" "Part 1") = 1 ∧
    unescapedCount openBracketChar (vfFilter 1080 1920 "" "xy" "Part 1") = 0 := by
  refine ⟨rfl, ?_, ?_⟩
  · set_option maxRecDepth 4000 in decide
  · set_option maxRecDepth 4000 in decide

theorem foldl_max_init_le (l : List ℕ) (init : ℕ) : init ≤ l.foldl max init := by
  induction l generalizing init with
  | nil => exact le_rfl
  | cons a l ih => exact le_trans (Nat.le_max_left init a) (ih (max init a))

theorem le_foldl_max (l : List ℕ) (init : ℕ) (x : ℕ) (hx : x ∈ l) : x ≤ l.foldl max init := by
  induction l generalizing init with
  | nil => cases hx
  | cons a l ih =>
    rcases List.mem_cons.mp hx with rfl | hx
    · exact le_trans (Nat.le_max_right init x) (foldl_max_init_le l (max init x))
    · exact ih (max init a) hx

theorem padLine_length (max_len : ℕ) (line : String) (h : line.length ≤ max_len) :
    (padLine max_len line).length = max_len := by
  unfold padLine
  rw [String.length_append, String.length_append,
    List.length_asString, List.length_asString,
    List.length_replicate, List.length_replicate]
  omega

/-- C10: `break_and_pad` is partial.  When wrapping yields at least one
line, every padded line has the same length, the maximum wrapped line
length; when wrapping yields no lines — as for the empty and the
whitespace-only title — `max()` raises ValueError, so the Segmenting
Engine fails before building any segment for a task whose overlay title
wraps to nothing. -/
theorem C10_break_and_pad_partial :
    (∀ lines : List String, lines ≠ [] →
      ∀ l ∈ paddedLines lines, l.length = maxLineLen lines) ∧
    (∀ (text : String) (width : ℕ), wrapText text width = [] →
      breakAndPad text width = .error "ValueError: max() arg is an empty sequence") ∧
    wrapText "" 30 = [] ∧ wrapText "   " 30 = [] ∧
    (∀ d s : ℚ, splitAndMark "" d s = .error "ValueError: max() arg is an empty sequence") := by
  refine ⟨?_, ?_, rfl, rfl, fun d s => rfl⟩
  · intro lines _ l hl
    rcases List.mem_map.mp hl with ⟨w, hw, rfl⟩
    exact padLine_length (maxLineLen lines) w
      (le_foldl_max (lines.map String.length) 0 w.length (List.mem_map_of_mem _ hw))
  · intro text width hw
    simp [breakAndPad, hw]

/-- Witness for C10: the padding-uniformity part applied at a concrete
two-line wrap result, and the ValueError part at the empty title. -/
theorem C10_break_and_pad_partial_witness :
    (["hello world this is a somewhat", "longer title"] ≠ ([] : List String) ∧
      ∀ l ∈ paddedLines ["hello world this is a somewhat", "longer title"],
        l.length = maxLineLen ["hello world this is a somewhat", "longer title"]) ∧
    (wrapText "" 30 = [] ∧
      breakAndPad "" 30 = .error "ValueError: max() arg is an empty sequence") :=
  ⟨⟨by decide, C10_break_and_pad_partial.1 _ (by decide)⟩,
    ⟨rfl, C10_break_and_pad_partial.2.1 "" 30 rfl⟩⟩
